import Mathlib

/-!
Formal model of the newsfresh GKG record-parsing subsystem.

The Rust sources under src/parse are embedded shallowly:

* Rust string slices are modelled as Lean `String` (a wrapper around
  `List Char`); splitting on a one-byte delimiter character is modelled by
  `splitOnCore`, which mirrors the semantics of Rust `str::split(char)`
  (the empty string yields one empty piece, consecutive delimiters yield
  empty pieces).
* Machine integers `i64` and `i32` are modelled as `Int`; the fallible Rust
  `str::parse` is modelled by an explicit syntax check plus an explicit
  range check, so an out-of-range literal falls back to the same zero
  default as a malformed one.
* Rust `f64` is idealised as `ℚ`; the model of `str::parse::<f64>` covers
  the finite decimal-literal grammar (optional sign, integer and fractional
  digits, optional decimal exponent).  The special spellings inf and nan,
  which never occur in the claims under study, are treated as parse
  failures.
* Fallible record assembly (`Result` in Rust) is modelled with `Except`.
-/

namespace Newsfresh

/-- Numeric value of a list of decimal digits, most significant first. -/
def natOfDigits (l : List Char) : Nat :=
  l.foldl (fun a c => a * 10 + (c.toNat - 48)) 0

/-- Unsigned digit-string parse: the string must be nonempty and consist of
ASCII digits only, as in Rust integer parsing. -/
def parseDigits (l : List Char) : Option Nat :=
  if l ≠ [] ∧ l.all Char.isDigit then some (natOfDigits l) else none

/-- Signed-integer syntax of Rust `str::parse` for integer types: an
optional single sign followed by one or more digits and nothing else. -/
def parseIntOpt (l : List Char) : Option Int :=
  match l with
  | '+' :: r => (parseDigits r).map (fun n => (n : Int))
  | '-' :: r => (parseDigits r).map (fun n => -(n : Int))
  | r => (parseDigits r).map (fun n => (n : Int))

/-- Model of `parse_i64` from src/parse/delimiters.rs: parse an i64 with a
silent zero default.  Out-of-range literals fail Rust's range check and
hence also default to zero. -/
def parse_i64 (s : List Char) : Int :=
  match parseIntOpt s with
  | some n => if -(2 ^ 63) ≤ n ∧ n ≤ 2 ^ 63 - 1 then n else 0
  | none => 0

/-- Model of `parse_i32` from src/parse/delimiters.rs, with the i32 range. -/
def parse_i32 (s : List Char) : Int :=
  match parseIntOpt s with
  | some n => if -(2 ^ 31) ≤ n ∧ n ≤ 2 ^ 31 - 1 then n else 0
  | none => 0

/-- Decimal exponent tail of a float literal: either nothing, or e / E
followed by a signed digit string. -/
def parseExpOpt (l : List Char) : Option Int :=
  match l with
  | [] => some 0
  | c :: r => if c = 'e' ∨ c = 'E' then parseIntOpt r else none

/-- Unsigned part of the Rust float grammar: digits, an optional point with
further digits (at least one digit overall), and an optional exponent. -/
def parseF64Unsigned (l : List Char) : Option ℚ :=
  let ip := l.takeWhile Char.isDigit
  let r1 := l.dropWhile Char.isDigit
  match r1 with
  | '.' :: r2 =>
    let fp := r2.takeWhile Char.isDigit
    let r3 := r2.dropWhile Char.isDigit
    if ip = [] ∧ fp = [] then none
    else (parseExpOpt r3).map (fun e =>
      ((natOfDigits ip : ℚ) + (natOfDigits fp : ℚ) / 10 ^ fp.length) * 10 ^ e)
  | _ =>
    if ip = [] then none
    else (parseExpOpt r1).map (fun e => (natOfDigits ip : ℚ) * 10 ^ e)

/-- Model of `parse_f64` from src/parse/delimiters.rs: parse a float with a
silent zero default, the float value being idealised as a rational. -/
def parse_f64 (s : List Char) : ℚ :=
  match s with
  | '+' :: r => (parseF64Unsigned r).getD 0
  | '-' :: r => ((parseF64Unsigned r).map Neg.neg).getD 0
  | r => (parseF64Unsigned r).getD 0

/-- Model of Rust `str::split(c)`: split a character list at every
occurrence of the delimiter.  The result is always nonempty; the empty
input yields one empty piece, as in Rust. -/
def splitOnCore (c : Char) : List Char → List (List Char)
  | [] => [[]]
  | x :: xs =>
    match splitOnCore c xs with
    | [] => [[]]
    | y :: ys => if x = c then [] :: y :: ys else (x :: y) :: ys

/-- Model of Rust `str::rfind(c)` combined with the two slices around the
found position: split a block at the last occurrence of the delimiter. -/
def rsplitChar (c : Char) : List Char → Option (List Char × List Char)
  | [] => none
  | x :: xs =>
    match rsplitChar c xs with
    | some p => some (x :: p.1, p.2)
    | none => if x = c then some ([], xs) else none

/-- Index (in characters) of the last occurrence of a character, modelling
Rust `str::rfind` for a one-byte needle. -/
def rfindIdx (c : Char) : List Char → Option Nat
  | [] => none
  | x :: xs =>
    match rfindIdx c xs with
    | some i => some (i + 1)
    | none => if x = c then some 0 else none

/-- Split at the first occurrence of a character, modelling the two items
produced by Rust `str::splitn(2, c)` when the delimiter occurs. -/
def splitFirst (c : Char) : List Char → Option (List Char × List Char)
  | [] => none
  | x :: xs =>
    if x = c then some ([], xs)
    else (splitFirst c xs).map (fun p => (x :: p.1, p.2))

/-- Model of Rust `str::splitn(3, c)`: at most three pieces, the last piece
keeping any further delimiters. -/
def splitN3 (c : Char) (l : List Char) : List (List Char) :=
  match splitFirst c l with
  | none => [l]
  | some p =>
    match splitFirst c p.2 with
    | none => [p.1, p.2]
    | some q => [p.1, q.1, q.2]

/-- Model of `hash_field` from src/parse/delimiters.rs: positional lookup
with an empty-string default, never out of bounds. -/
def hash_field (parts : List (List Char)) (index : Nat) : List Char :=
  (parts.get? index).getD []

/-- Model of Rust `str::trim`: drop whitespace from both ends. -/
def trimChars (l : List Char) : List Char :=
  ((l.dropWhile Char.isWhitespace).reverse.dropWhile Char.isWhitespace).reverse

/-- Model of Rust `str::strip_prefix`: remove a literal leading key,
failing when the key is not a prefix of the text. -/
def stripLead : List Char → List Char → Option (List Char)
  | [], l => some l
  | _ :: _, [] => none
  | p :: ps, x :: xs => if x = p then stripLead ps xs else none

/-- Blocks of a composite field: split on the delimiter and drop empty
pieces, as in the shared `split .. filter !is_empty` chain of every
sub-parser. -/
def blocksOf (d : Char) (field : String) : List (List Char) :=
  (splitOnCore d field.data).filter (fun b => !b.isEmpty)

/-- Shared shape of the composite-field sub-parsers in src/parse: an empty
field yields no elements, otherwise the field is split into nonempty blocks
and each block is passed to a per-grammar block function whose none result
drops the block (`filter_map` in the Rust chain). -/
def blockParse (d : Char) (g : List Char → Option α) (field : String) : List α :=
  if field.data.isEmpty then []
  else (blocksOf d field).filterMap g

/-- Model of LocationV1 from src/model/location.rs. -/
structure LocationV1 where
  location_type : Int
  full_name : String
  country_code : String
  adm1_code : String
  latitude : ℚ
  longitude : ℚ
  feature_id : String
deriving Repr, DecidableEq

/-- Model of EnhancedLocation from src/model/location.rs. -/
structure EnhancedLocation where
  location_type : Int
  full_name : String
  country_code : String
  adm1_code : String
  adm2_code : String
  latitude : ℚ
  longitude : ℚ
  feature_id : String
  char_offset : Int
deriving Repr, DecidableEq

/-- Model of CountV1 from src/model/count.rs. -/
structure CountV1 where
  count_type : String
  count : Int
  object_type : String
  location : LocationV1
deriving Repr, DecidableEq

/-- Model of CountV21 from src/model/count.rs. -/
structure CountV21 where
  count_type : String
  count : Int
  object_type : String
  location : LocationV1
  char_offset : Int
deriving Repr, DecidableEq

/-- Model of EnhancedTheme from src/model/theme.rs. -/
structure EnhancedTheme where
  theme : String
  char_offset : Int
deriving Repr, DecidableEq

/-- Model of EnhancedEntity from src/model/person.rs. -/
structure EnhancedEntity where
  name : String
  char_offset : Int
deriving Repr, DecidableEq

/-- Model of NameEntry from src/model/name.rs. -/
structure NameEntry where
  name : String
  char_offset : Int
deriving Repr, DecidableEq

/-- Model of Tone from src/model/tone.rs. -/
structure Tone where
  tone : ℚ
  positive_score : ℚ
  negative_score : ℚ
  polarity : ℚ
  activity_ref_density : ℚ
  self_group_ref_density : ℚ
  word_count : Int
deriving Repr, DecidableEq

/-- Model of EnhancedDate from src/model/date.rs. -/
structure EnhancedDate where
  resolution : Int
  month : Int
  day : Int
  year : Int
  char_offset : Int
deriving Repr, DecidableEq

/-- Model of GcamEntry from src/model/gcam.rs. -/
structure GcamEntry where
  dimension : String
  value : ℚ
deriving Repr, DecidableEq

/-- Model of Quotation from src/model/quotation.rs. -/
structure Quotation where
  offset : Int
  length : Int
  verb : String
  quote : String
deriving Repr, DecidableEq

/-- Model of AmountEntry from src/model/amount.rs. -/
structure AmountEntry where
  amount : ℚ
  object : String
  char_offset : Int
deriving Repr, DecidableEq

/-- Model of TranslationInfo from src/model/translation.rs. -/
structure TranslationInfo where
  source_language : String
  engine : String
deriving Repr, DecidableEq

/-- Model of GkgRecord from src/model/gkg.rs, listing all 27 fields in
their wire order. -/
structure GkgRecord where
  gkg_record_id : String
  date : Int
  source_collection_id : Int
  source_common_name : String
  document_identifier : String
  v1_counts : List CountV1
  v21_counts : List CountV21
  v1_themes : List String
  v2_enhanced_themes : List EnhancedTheme
  v1_locations : List LocationV1
  v2_enhanced_locations : List EnhancedLocation
  v1_persons : List String
  v2_enhanced_persons : List EnhancedEntity
  v1_organizations : List String
  v2_enhanced_organizations : List EnhancedEntity
  tone : Option Tone
  v21_enhanced_dates : List EnhancedDate
  gcam : List GcamEntry
  sharing_image : Option String
  related_images : List String
  social_image_embeds : List String
  social_video_embeds : List String
  quotations : List Quotation
  all_names : List NameEntry
  amounts : List AmountEntry
  translation_info : Option TranslationInfo
  extras_xml : Option String
deriving Repr, DecidableEq

/-- Model of the NewsfreshError variant reachable from the parsing
subsystem (src/error.rs); the other variants concern I/O, HTTP and
serialization and cannot be produced by parse_record. -/
inductive NewsfreshError where
  | Parse (line : Nat) (message : String)
deriving Repr, DecidableEq

/-- Per-block body of `parse_counts_v1` (src/parse/counts.rs): a block with
fewer than two hash-parts is dropped; all other positions default. -/
def countV1OfBlock (block : List Char) : Option CountV1 :=
  let parts := splitOnCore '#' block
  if parts.length < 2 then none
  else some ⟨String.mk (hash_field parts 0), parse_i64 (hash_field parts 1),
    String.mk (hash_field parts 2),
    ⟨parse_i32 (hash_field parts 3), String.mk (hash_field parts 4),
      String.mk (hash_field parts 5), String.mk (hash_field parts 6),
      parse_f64 (hash_field parts 7), parse_f64 (hash_field parts 8),
      String.mk (hash_field parts 9)⟩⟩

/-- Model of `parse_counts_v1` from src/parse/counts.rs. -/
def parse_counts_v1 (field : String) : List CountV1 :=
  blockParse ';' countV1OfBlock field

/-- Per-block body of `parse_counts_v21` (src/parse/counts.rs): the V1
grammar plus a character offset at hash-part 10. -/
def countV21OfBlock (block : List Char) : Option CountV21 :=
  let parts := splitOnCore '#' block
  if parts.length < 2 then none
  else some ⟨String.mk (hash_field parts 0), parse_i64 (hash_field parts 1),
    String.mk (hash_field parts 2),
    ⟨parse_i32 (hash_field parts 3), String.mk (hash_field parts 4),
      String.mk (hash_field parts 5), String.mk (hash_field parts 6),
      parse_f64 (hash_field parts 7), parse_f64 (hash_field parts 8),
      String.mk (hash_field parts 9)⟩,
    parse_i64 (hash_field parts 10)⟩

/-- Model of `parse_counts_v21` from src/parse/counts.rs. -/
def parse_counts_v21 (field : String) : List CountV21 :=
  blockParse ';' countV21OfBlock field

/-- Model of `parse_themes_v1` from src/parse/themes.rs: each nonempty
semicolon block is kept verbatim. -/
def parse_themes_v1 (field : String) : List String :=
  blockParse ';' (fun b => some (String.mk b)) field

/-- Per-block body of `parse_enhanced_themes` (src/parse/themes.rs): split
at the first comma only; a missing offset defaults to zero. -/
def enhancedThemeOfBlock (block : List Char) : Option EnhancedTheme :=
  match splitFirst ',' block with
  | none => some ⟨String.mk block, 0⟩
  | some p => some ⟨String.mk p.1, parse_i64 p.2⟩

/-- Model of `parse_enhanced_themes` from src/parse/themes.rs. -/
def parse_enhanced_themes (field : String) : List EnhancedTheme :=
  blockParse ';' enhancedThemeOfBlock field

/-- Per-block body of `parse_locations_v1` (src/parse/locations.rs): seven
positional hash-parts, missing ones defaulting. -/
def locationV1OfBlock (block : List Char) : Option LocationV1 :=
  let parts := splitOnCore '#' block
  if parts.isEmpty then none
  else some ⟨parse_i32 (hash_field parts 0), String.mk (hash_field parts 1),
    String.mk (hash_field parts 2), String.mk (hash_field parts 3),
    parse_f64 (hash_field parts 4), parse_f64 (hash_field parts 5),
    String.mk (hash_field parts 6)⟩

/-- Model of `parse_locations_v1` from src/parse/locations.rs. -/
def parse_locations_v1 (field : String) : List LocationV1 :=
  blockParse ';' locationV1OfBlock field

/-- Per-block body of `parse_enhanced_locations` (src/parse/locations.rs):
the V2 grammar inserts adm2 between adm1 and latitude and appends a
character offset. -/
def enhancedLocationOfBlock (block : List Char) : Option EnhancedLocation :=
  let parts := splitOnCore '#' block
  if parts.isEmpty then none
  else some ⟨parse_i32 (hash_field parts 0), String.mk (hash_field parts 1),
    String.mk (hash_field parts 2), String.mk (hash_field parts 3),
    String.mk (hash_field parts 4),
    parse_f64 (hash_field parts 5), parse_f64 (hash_field parts 6),
    String.mk (hash_field parts 7), parse_i64 (hash_field parts 8)⟩

/-- Model of `parse_enhanced_locations` from src/parse/locations.rs. -/
def parse_enhanced_locations (field : String) : List EnhancedLocation :=
  blockParse ';' enhancedLocationOfBlock field

/-- Model of `parse_persons_v1` from src/parse/persons.rs. -/
def parse_persons_v1 (field : String) : List String :=
  blockParse ';' (fun b => some (String.mk b)) field

/-- Per-block body of `parse_enhanced_entities` (src/parse/persons.rs):
split at the last comma; a block without a comma or with an empty name is
dropped, a malformed offset defaults to zero. -/
def enhancedEntityOfBlock (block : List Char) : Option EnhancedEntity :=
  match rsplitChar ',' block with
  | none => none
  | some p =>
    if p.1.isEmpty then none
    else some ⟨String.mk p.1, parse_i64 p.2⟩

/-- Model of `parse_enhanced_entities` from src/parse/persons.rs. -/
def parse_enhanced_entities (field : String) : List EnhancedEntity :=
  blockParse ';' enhancedEntityOfBlock field

/-- Per-block body of `parse_names` (src/parse/names.rs): the same
last-comma grammar as the enhanced entities. -/
def nameOfBlock (block : List Char) : Option NameEntry :=
  match rsplitChar ',' block with
  | none => none
  | some p =>
    if p.1.isEmpty then none
    else some ⟨String.mk p.1, parse_i64 p.2⟩

/-- Model of `parse_names` from src/parse/names.rs. -/
def parse_names (field : String) : List NameEntry :=
  blockParse ';' nameOfBlock field

/-- Model of `parse_tone` from src/parse/tone.rs: a single comma-separated
block with seven positions, absent positions defaulting through the
literal "0". -/
def parse_tone (field : String) : Option Tone :=
  if field.data.isEmpty then none
  else
    let parts := splitOnCore ',' field.data
    if parts.isEmpty then none
    else some ⟨parse_f64 ((parts.get? 0).getD "0".data),
      parse_f64 ((parts.get? 1).getD "0".data),
      parse_f64 ((parts.get? 2).getD "0".data),
      parse_f64 ((parts.get? 3).getD "0".data),
      parse_f64 ((parts.get? 4).getD "0".data),
      parse_f64 ((parts.get? 5).getD "0".data),
      parse_i64 ((parts.get? 6).getD "0".data)⟩

/-- Per-block body of `parse_enhanced_dates` (src/parse/dates.rs). -/
def enhancedDateOfBlock (block : List Char) : Option EnhancedDate :=
  let parts := splitOnCore ',' block
  if parts.isEmpty then none
  else some ⟨parse_i32 ((parts.get? 0).getD "0".data),
    parse_i32 ((parts.get? 1).getD "0".data),
    parse_i32 ((parts.get? 2).getD "0".data),
    parse_i32 ((parts.get? 3).getD "0".data),
    parse_i64 ((parts.get? 4).getD "0".data)⟩

/-- Model of `parse_enhanced_dates` from src/parse/dates.rs. -/
def parse_enhanced_dates (field : String) : List EnhancedDate :=
  blockParse ';' enhancedDateOfBlock field

/-- Per-block body of `parse_gcam` (src/parse/gcam.rs): a comma block
split at the first colon; a missing value defaults to zero. -/
def gcamOfBlock (pair : List Char) : Option GcamEntry :=
  match splitFirst ':' pair with
  | none => some ⟨String.mk pair, 0⟩
  | some p => some ⟨String.mk p.1, parse_f64 p.2⟩

/-- Model of `parse_gcam` from src/parse/gcam.rs; note the comma block
delimiter. -/
def parse_gcam (field : String) : List GcamEntry :=
  blockParse ',' gcamOfBlock field

/-- Per-block body of `parse_quotations` (src/parse/quotations.rs): a
block with fewer than four pipe-parts is dropped. -/
def quotationOfBlock (block : List Char) : Option Quotation :=
  let parts := splitOnCore '|' block
  if parts.length < 4 then none
  else some ⟨parse_i64 ((parts.get? 0).getD []), parse_i64 ((parts.get? 1).getD []),
    String.mk ((parts.get? 2).getD []), String.mk ((parts.get? 3).getD [])⟩

/-- Model of `parse_quotations` from src/parse/quotations.rs; note the hash
block delimiter, unlike the semicolon used elsewhere. -/
def parse_quotations (field : String) : List Quotation :=
  blockParse '#' quotationOfBlock field

/-- Per-block body of `parse_amounts` (src/parse/amounts.rs): at most
three comma-parts, the object defaulting to the empty string and the
numbers to zero. -/
def amountOfBlock (block : List Char) : Option AmountEntry :=
  let parts := splitN3 ',' block
  if parts.isEmpty then none
  else some ⟨parse_f64 ((parts.get? 0).getD "0".data),
    String.mk ((parts.get? 1).getD []),
    parse_i64 ((parts.get? 2).getD "0".data)⟩

/-- Model of `parse_amounts` from src/parse/amounts.rs. -/
def parse_amounts (field : String) : List AmountEntry :=
  blockParse ';' amountOfBlock field

/-- Key recognised for the source language in src/parse/translation.rs. -/
def srclcKey : List Char := ['s', 'r', 'c', 'l', 'c', ':']

/-- Key recognised for the engine in src/parse/translation.rs. -/
def engKey : List Char := ['e', 'n', 'g', ':']

/-- Fold step of `parse_translation_info`: each semicolon token is
trimmed; a token carrying a recognised key overwrites the corresponding
accumulator component with its trimmed value. -/
def translationStep (acc : List Char × List Char) (part : List Char) : List Char × List Char :=
  let t := trimChars part
  match stripLead srclcKey t with
  | some lang => (trimChars lang, acc.2)
  | none =>
    match stripLead engKey t with
    | some eng => (acc.1, trimChars eng)
    | none => acc

/-- Model of `parse_translation_info` from src/parse/translation.rs; note
that the token iteration does not drop empty tokens, and that the result
is none exactly when both accumulated strings end up empty. -/
def parse_translation_info (field : String) : Option TranslationInfo :=
  if field.data.isEmpty then none
  else
    let r := (splitOnCore ';' field.data).foldl translationStep ([], [])
    if r.1.isEmpty ∧ r.2.isEmpty then none
    else some ⟨String.mk r.1, String.mk r.2⟩

/-- Model of `non_empty` from src/parse/delimiters.rs. -/
def non_empty (input : String) : Option String :=
  if input.data.isEmpty then none else some input

/-- Model of `split_semicolon_list` from src/parse/delimiters.rs. -/
def split_semicolon_list (input : String) : List String :=
  blockParse ';' (fun b => some (String.mk b)) input

/-- Field accessor of `parse_record`: the field at an index, or the empty
string when the line has fewer fields. -/
def recordField (fields : List (List Char)) (i : Nat) : List Char :=
  (fields.get? i).getD []

/-- Model of `parse_record` from src/parse/mod.rs: split the line on tabs,
fail with a Parse error naming the line number and the received field
count when fewer than 5 fields are present, and otherwise dispatch the 27
positional fields. -/
def parse_record (line : String) (line_number : Nat) : Except NewsfreshError GkgRecord :=
  let fields := splitOnCore '\t' line.data
  if fields.length < 5 then
    .error (.Parse line_number
      ("Expected at least 5 tab-delimited fields, got " ++ toString fields.length))
  else
    .ok ⟨String.mk (recordField fields 0),
      parse_i64 (recordField fields 1),
      parse_i32 (recordField fields 2),
      String.mk (recordField fields 3),
      String.mk (recordField fields 4),
      parse_counts_v1 (String.mk (recordField fields 5)),
      parse_counts_v21 (String.mk (recordField fields 6)),
      parse_themes_v1 (String.mk (recordField fields 7)),
      parse_enhanced_themes (String.mk (recordField fields 8)),
      parse_locations_v1 (String.mk (recordField fields 9)),
      parse_enhanced_locations (String.mk (recordField fields 10)),
      parse_persons_v1 (String.mk (recordField fields 11)),
      parse_enhanced_entities (String.mk (recordField fields 12)),
      parse_persons_v1 (String.mk (recordField fields 13)),
      parse_enhanced_entities (String.mk (recordField fields 14)),
      parse_tone (String.mk (recordField fields 15)),
      parse_enhanced_dates (String.mk (recordField fields 16)),
      parse_gcam (String.mk (recordField fields 17)),
      non_empty (String.mk (recordField fields 18)),
      split_semicolon_list (String.mk (recordField fields 19)),
      split_semicolon_list (String.mk (recordField fields 20)),
      split_semicolon_list (String.mk (recordField fields 21)),
      parse_quotations (String.mk (recordField fields 22)),
      parse_names (String.mk (recordField fields 23)),
      parse_amounts (String.mk (recordField fields 24)),
      parse_translation_info (String.mk (recordField fields 25)),
      non_empty (String.mk (recordField fields 26))⟩

/-- Model of one `read_line` call of the buffered reader backing GkgReader
(src/parse/reader.rs): consume characters up to and including the first
line feed, or the whole remaining stream when no line feed is left.  The
first component is the physical line read, the second the rest of the
stream. -/
def readLine : List Char → List Char × List Char
  | [] => ([], [])
  | x :: xs =>
    if x = '\n' then ([x], xs)
    else
      let p := readLine xs
      (x :: p.1, p.2)

/-- Trailing-character trim, modelling Rust `str::trim_end_matches` for a
one-character pattern. -/
def trimEndChar (c : Char) (l : List Char) : List Char :=
  (l.reverse.dropWhile (fun x => x = c)).reverse

/-- Line cleanup of `GkgReader::next` (src/parse/reader.rs): strip the
trailing line feed, then any trailing carriage returns. -/
def stripLine (l : List Char) : List Char :=
  trimEndChar '\r' (trimEndChar '\n' l)

theorem readLine_fst_append_snd (s : List Char) :
    (readLine s).1 ++ (readLine s).2 = s := by
  induction s with
  | nil => rfl
  | cons x xs ih =>
    by_cases h : x = '\n' <;> simp [readLine, h, ih]

theorem readLine_fst_ne_nil (s : List Char) (hs : s ≠ []) :
    (readLine s).1 ≠ [] := by
  cases s with
  | nil => exact absurd rfl hs
  | cons x xs =>
    by_cases h : x = '\n' <;> simp [readLine, h]

theorem readLine_snd_length_lt (s : List Char) (hs : s ≠ []) :
    (readLine s).2.length < s.length := by
  have h1 := readLine_fst_append_snd s
  have h2 := readLine_fst_ne_nil s hs
  have : (readLine s).1.length + (readLine s).2.length = s.length := by
    rw [← List.length_append, h1]
  have hpos : 0 < (readLine s).1.length := List.length_pos.mpr h2
  omega

/-- Decomposition of a stream into successive physical lines, each as read
by one `read_line` call. -/
def physLines (s : List Char) : List (List Char) :=
  if hs : s.isEmpty then []
  else (readLine s).1 :: physLines (readLine s).2
termination_by s.length
decreasing_by
  exact readLine_snd_length_lt s (by simpa [List.isEmpty_iff] using hs)

/-- Model of the full item sequence produced by repeated `GkgReader::next`
calls (src/parse/reader.rs) from a given stream and line counter: a read
of zero bytes ends the iteration, every physical line read advances the
counter, and a line that is empty after stripping is skipped without being
yielded. -/
def gkgRun (s : List Char) (n : Nat) : List (Nat × String) :=
  if hs : s.isEmpty then []
  else
    let t := stripLine (readLine s).1
    if t.isEmpty then gkgRun (readLine s).2 (n + 1)
    else (n + 1, String.mk t) :: gkgRun (readLine s).2 (n + 1)
termination_by s.length
decreasing_by
  all_goals exact readLine_snd_length_lt s (by simpa [List.isEmpty_iff] using hs)

/-- Checked per-block body of `parse_quotations`, modelling the direct
Rust indexing `parts[0]` through `parts[3]` as fallible lookups: the outer
`none` stands for an index panic, `some none` for a dropped block. -/
def quotationOfBlockChk (block : List Char) : Option (Option Quotation) :=
  let parts := splitOnCore '|' block
  if parts.length < 4 then some none
  else
    match parts.get? 0, parts.get? 1, parts.get? 2, parts.get? 3 with
    | some p0, some p1, some p2, some p3 =>
      some (some ⟨parse_i64 p0, parse_i64 p1, String.mk p2, String.mk p3⟩)
    | _, _, _, _ => none

/-- Checked per-block body of `parse_enhanced_entities`, modelling the
Rust slices at the byte position returned by rfind as bounds-checked
take and drop: the outer `none` stands for a slice panic. -/
def enhancedEntityOfBlockChk (block : List Char) : Option (Option EnhancedEntity) :=
  match rfindIdx ',' block with
  | none => some none
  | some i =>
    if i ≤ block.length ∧ i + 1 ≤ block.length then
      let name := block.take i
      let off := block.drop (i + 1)
      some (if name.isEmpty then none else some ⟨String.mk name, parse_i64 off⟩)
    else none

/-- Run a checked block body over a block list, propagating a panic from
any block and discarding dropped blocks. -/
def runBlocksChk (g : List Char → Option (Option α)) : List (List Char) → Option (List α)
  | [] => some []
  | b :: bs =>
    match g b, runBlocksChk g bs with
    | some r, some rest => some (r.toList ++ rest)
    | _, _ => none

/-- Checked model of `parse_quotations`, in which an out-of-bounds index
inside any block would surface as `none`. -/
def parse_quotationsChk (field : String) : Option (List Quotation) :=
  if field.data.isEmpty then some []
  else runBlocksChk quotationOfBlockChk (blocksOf '#' field)

/-- Checked model of `parse_enhanced_entities`, in which an out-of-range
slice inside any block would surface as `none`. -/
def parse_enhanced_entitiesChk (field : String) : Option (List EnhancedEntity) :=
  if field.data.isEmpty then some []
  else runBlocksChk enhancedEntityOfBlockChk (blocksOf ';' field)

/-- Claim-side predicate for the Translation Info grammar: some semicolon
token of the field carries one of the two recognised prefixes once
trimmed. -/
def claimRecognizedToken (field : String) : Bool :=
  (splitOnCore ';' field.data).any (fun p =>
    (stripLead srclcKey (trimChars p)).isSome || (stripLead engKey (trimChars p)).isSome)

/-- Claim-side fold step for one Translation Info key, keeping the value
of the last token that carries the key. -/
def keyStep (key : List Char) (acc : List Char) (part : List Char) : List Char :=
  match stripLead key (trimChars part) with
  | some v => trimChars v
  | none => acc

/-- Claim-side extracted value for one Translation Info key: the trimmed
text after the key in the last token carrying it, or the empty string when
no token carries it. -/
def specTransValue (key : List Char) (field : String) : List Char :=
  (splitOnCore ';' field.data).foldl (keyStep key) []

theorem splitOnCore_ne_nil (c : Char) (l : List Char) : splitOnCore c l ≠ [] := by
  cases l with
  | nil => simp [splitOnCore]
  | cons x xs =>
    simp only [splitOnCore]
    cases h : splitOnCore c xs with
    | nil => simp
    | cons y ys => by_cases hx : x = c <;> simp [hx]

theorem splitOnCore_append (c : Char) (a b : List Char) :
    splitOnCore c (a ++ c :: b) = splitOnCore c a ++ splitOnCore c b := by
  induction a with
  | nil =>
    simp only [List.nil_append, splitOnCore]
    cases h : splitOnCore c b with
    | nil => exact absurd h (splitOnCore_ne_nil c b)
    | cons y ys => simp [splitOnCore, h]
  | cons x xs ih =>
    simp only [List.cons_append, splitOnCore, ih]
    cases h : splitOnCore c xs with
    | nil => exact absurd h (splitOnCore_ne_nil c xs)
    | cons y ys => by_cases hx : x = c <;> simp [hx, ih, h]

theorem splitOnCore_of_not_mem (c : Char) (l : List Char) (h : c ∉ l) :
    splitOnCore c l = [l] := by
  induction l with
  | nil => rfl
  | cons x xs ih =>
    simp only [List.mem_cons, not_or] at h
    have hx : ¬ x = c := fun he => h.1 he.symm
    simp [splitOnCore, ih h.2, hx]

theorem blockParse_eq {α : Type} (d : Char) (g : List Char → Option α) (f : String) :
    blockParse d g f = (blocksOf d f).filterMap g := by
  by_cases h : f.data.isEmpty
  · have hd : f.data = [] := by simpa using h
    simp [blockParse, blocksOf, h, hd, splitOnCore]
  · simp [blockParse, h]

theorem blocksOf_append (d : Char) (s t : String) :
    blocksOf d (s ++ String.mk [d] ++ t) = blocksOf d s ++ blocksOf d t := by
  have hd : (s ++ String.mk [d] ++ t).data = s.data ++ d :: t.data := by
    simp [String.data_append]
  rw [blocksOf, hd, splitOnCore_append, List.filter_append]
  rfl

theorem blockParse_append {α : Type} (d : Char) (g : List Char → Option α) (s t : String) :
    blockParse d g (s ++ String.mk [d] ++ t) = blockParse d g s ++ blockParse d g t := by
  rw [blockParse_eq, blockParse_eq, blockParse_eq, blocksOf_append, List.filterMap_append]

theorem blocksOf_single (d : Char) (f : String) (h1 : d ∉ f.data) (h2 : f.data ≠ []) :
    blocksOf d f = [f.data] := by
  rw [blocksOf, splitOnCore_of_not_mem d f.data h1]
  simp [h2]

theorem blockParse_single {α : Type} (d : Char) (g : List Char → Option α) (f : String)
    (h1 : d ∉ f.data) (h2 : f.data ≠ []) :
    blockParse d g f = (g f.data).toList := by
  rw [blockParse_eq, blocksOf_single d f h1 h2]
  cases h : g f.data <;> simp [h]

theorem rsplitChar_eq_none (c : Char) (l : List Char) (h : c ∉ l) :
    rsplitChar c l = none := by
  induction l with
  | nil => rfl
  | cons x xs ih =>
    simp only [List.mem_cons, not_or] at h
    have hx : ¬ x = c := fun he => h.1 he.symm
    simp [rsplitChar, ih h.2, hx]

theorem rsplitChar_append (c : Char) (a b : List Char) (h : c ∉ b) :
    rsplitChar c (a ++ c :: b) = some (a, b) := by
  induction a with
  | nil => simp [rsplitChar, rsplitChar_eq_none c b h]
  | cons x xs ih => simp [rsplitChar, ih]

theorem length_filterMap_eq_countP {α β : Type} (g : α → Option β) (l : List α) :
    (l.filterMap g).length = l.countP (fun a => (g a).isSome) := by
  induction l with
  | nil => rfl
  | cons x xs ih => cases hx : g x <;> simp [List.filterMap_cons, hx, List.countP_cons, ih]

theorem exists_four_cons {α : Type} (l : List α) (h : 4 ≤ l.length) :
    ∃ a b c d r, l = a :: b :: c :: d :: r := by
  cases l with
  | nil => simp at h
  | cons a l1 =>
    cases l1 with
    | nil => simp at h
    | cons b l2 =>
      cases l2 with
      | nil => simp at h
      | cons c l3 =>
        cases l3 with
        | nil => simp at h
        | cons d r => exact ⟨a, b, c, d, r, rfl⟩

theorem quotationOfBlockChk_eq (block : List Char) :
    quotationOfBlockChk block = some (quotationOfBlock block) := by
  unfold quotationOfBlockChk quotationOfBlock
  by_cases h : (splitOnCore '|' block).length < 4
  · simp [h]
  · obtain ⟨a, b, c, d, r, hp⟩ := exists_four_cons (splitOnCore '|' block) (by omega)
    simp [hp] at h ⊢
    rw [if_neg (by omega), if_neg (by omega)]

theorem rfindIdx_lt (c : Char) (l : List Char) :
    ∀ i, rfindIdx c l = some i → i < l.length := by
  induction l with
  | nil => simp [rfindIdx]
  | cons x xs ih =>
    intro i hi
    cases h : rfindIdx c xs with
    | some k =>
      simp only [rfindIdx, h, Option.some.injEq] at hi
      have := ih k h
      simp only [List.length_cons]
      omega
    | none =>
      by_cases hx : x = c
      · simp only [rfindIdx, h, hx, if_true, Option.some.injEq] at hi
        simp only [List.length_cons]
        omega
      · simp [rfindIdx, h, hx] at hi

theorem rsplitChar_eq_rfindIdx (c : Char) (l : List Char) :
    rsplitChar c l = (rfindIdx c l).map (fun i => (l.take i, l.drop (i + 1))) := by
  induction l with
  | nil => rfl
  | cons x xs ih =>
    cases h : rfindIdx c xs with
    | some k =>
      rw [rsplitChar, ih, h]
      simp [rfindIdx, h]
    | none =>
      by_cases hx : x = c <;>
        · rw [rsplitChar, ih, h]
          simp [rfindIdx, h, hx]

theorem enhancedEntityOfBlockChk_eq (block : List Char) :
    enhancedEntityOfBlockChk block = some (enhancedEntityOfBlock block) := by
  have hsplit := rsplitChar_eq_rfindIdx ',' block
  unfold enhancedEntityOfBlockChk enhancedEntityOfBlock
  cases h : rfindIdx ',' block with
  | none => rw [hsplit, h]; rfl
  | some i =>
    have hb := rfindIdx_lt ',' block i h
    rw [hsplit, h]
    simp [Nat.le_of_lt hb, Nat.succ_le_of_lt hb]

theorem runBlocksChk_eq {α : Type} (g : List Char → Option (Option α))
    (g₀ : List Char → Option α) (hg : ∀ b, g b = some (g₀ b)) (bs : List (List Char)) :
    runBlocksChk g bs = some (bs.filterMap g₀) := by
  induction bs with
  | nil => rfl
  | cons b bs ih =>
    rw [runBlocksChk, hg b, ih]
    cases h : g₀ b <;> simp [h, List.filterMap_cons]

theorem stripLead_srclc_imp_eng_none (t : List Char)
    (h : (stripLead srclcKey t).isSome) : stripLead engKey t = none := by
  cases t with
  | nil => simp [srclcKey, stripLead] at h
  | cons x xs =>
    by_cases hx : x = 's'
    · subst hx
      simp [engKey, stripLead]
    · simp [srclcKey, stripLead, hx] at h

theorem translationStep_eq (a b p : List Char) :
    translationStep (a, b) p = (keyStep srclcKey a p, keyStep engKey b p) := by
  unfold translationStep keyStep
  cases hs : stripLead srclcKey (trimChars p) with
  | some v =>
    have he : stripLead engKey (trimChars p) = none :=
      stripLead_srclc_imp_eng_none (trimChars p) (by simp [hs])
    simp [hs, he]
  | none => cases he : stripLead engKey (trimChars p) <;> simp [hs, he]

theorem translation_foldl_eq (ps : List (List Char)) (a b : List Char) :
    ps.foldl translationStep (a, b) =
      (ps.foldl (keyStep srclcKey) a, ps.foldl (keyStep engKey) b) := by
  induction ps generalizing a b with
  | nil => rfl
  | cons p ps ih => rw [List.foldl_cons, List.foldl_cons, List.foldl_cons,
      translationStep_eq, ih]

/-- Specification-side view of one reader item: a physical line at
1-based number i + 1 is yielded with its stripped text exactly when that
text is nonempty. -/
def readerItem (p : Nat × List Char) : Option (Nat × String) :=
  if (stripLine p.2).isEmpty then none
  else some (p.1 + 1, String.mk (stripLine p.2))

theorem gkgRun_spec (s : List Char) (n : Nat) :
    gkgRun s n = ((physLines s).enumFrom n).filterMap readerItem := by
  by_cases hs : s.isEmpty
  · unfold gkgRun physLines
    rw [dif_pos hs, dif_pos hs]
    rfl
  · unfold gkgRun physLines
    rw [dif_neg hs, dif_neg hs]
    have ih := gkgRun_spec (readLine s).2 (n + 1)
    rw [List.enumFrom_cons, List.filterMap_cons]
    by_cases ht : (stripLine (readLine s).1).isEmpty
    · rw [if_pos ht, ih]
      simp [readerItem, ht]
    · rw [if_neg ht, ih]
      simp [readerItem, ht]
termination_by s.length
decreasing_by
  all_goals exact readLine_snd_length_lt s (by simpa using hs)

/-- Claim C1: for every input line and line number, parse_record returns an
error exactly when splitting the line on the tab character yields fewer
than 5 fields; the error carries the line number and a message naming the
received field count, and in every other case record assembly succeeds,
so this is the only condition aborting it. -/
theorem C1_record_min_fields (line : String) (n : Nat) :
    if (splitOnCore '\t' line.data).length < 5 then
      parse_record line n = .error (.Parse n
        ("Expected at least 5 tab-delimited fields, got " ++
          toString (splitOnCore '\t' line.data).length))
    else ∃ r, parse_record line n = .ok r := by
  by_cases h : (splitOnCore '\t' line.data).length < 5
  · rw [if_pos h]
    simp only [parse_record]
    rw [if_pos h]
  · rw [if_neg h]
    simp only [parse_record]
    rw [if_neg h]
    exact ⟨_, rfl⟩

/-- Claim C3: every line with exactly 5 tab-separated fields parses
successfully, the five scalar fields being read from positions 0 to 4
(date and source collection id through the zero-defaulting numeric
parsers) and every field beyond index 4 taking its type's empty or
default value. -/
theorem C3_exactly_five_fields (line : String) (n : Nat)
    (h : (splitOnCore '\t' line.data).length = 5) :
    parse_record line n = .ok
      ⟨String.mk (recordField (splitOnCore '\t' line.data) 0),
        parse_i64 (recordField (splitOnCore '\t' line.data) 1),
        parse_i32 (recordField (splitOnCore '\t' line.data) 2),
        String.mk (recordField (splitOnCore '\t' line.data) 3),
        String.mk (recordField (splitOnCore '\t' line.data) 4),
        [], [], [], [], [], [], [], [], [], [], none, [], [], none, [], [], [], [],
        [], [], none, none⟩ := by
  have h5 : ∀ i, 5 ≤ i → recordField (splitOnCore '\t' line.data) i = [] := by
    intro i hi
    unfold recordField
    rw [List.get?_eq_none.mpr (by omega), Option.getD_none]
  simp only [parse_record]
  rw [if_neg (by omega)]
  rw [h5 5 (by omega), h5 6 (by omega), h5 7 (by omega), h5 8 (by omega), h5 9 (by omega),
    h5 10 (by omega), h5 11 (by omega), h5 12 (by omega), h5 13 (by omega), h5 14 (by omega),
    h5 15 (by omega), h5 16 (by omega), h5 17 (by omega), h5 18 (by omega), h5 19 (by omega),
    h5 20 (by omega), h5 21 (by omega), h5 22 (by omega), h5 23 (by omega), h5 24 (by omega),
    h5 25 (by omega), h5 26 (by omega)]
  rfl

/-- Witness for C3 at a concrete 5-field line whose date and source
collection id are unparsable and therefore default to 0. -/
theorem C3_exactly_five_fields_witness :
    parse_record "rec-001\tBADDATE\tBADID\tnytimes.com\thttps://nytimes.com/a" 9 = .ok
      ⟨"rec-001", 0, 0, "nytimes.com", "https://nytimes.com/a",
        [], [], [], [], [], [], [], [], [], [], none, [], [], none, [], [], [], [],
        [], [], none, none⟩ := by
  have h := C3_exactly_five_fields
    "rec-001\tBADDATE\tBADID\tnytimes.com\thttps://nytimes.com/a" 9 (by decide)
  rw [h]
  rfl

/-- Claim C5: for every block of the enhanced persons/organizations parser or
of the names parser, the block splits at its last comma: the text before
it, commas included, becomes the name and the text after it the parsed
character offset. -/
theorem C5_last_comma_split (nm off : String) (h1 : nm.data ≠ []) (h2 : ';' ∉ nm.data)
    (h3 : ',' ∉ off.data) (h4 : ';' ∉ off.data) :
    parse_enhanced_entities (nm ++ "," ++ off) = [⟨nm, parse_i64 off.data⟩] ∧
    parse_names (nm ++ "," ++ off) = [⟨nm, parse_i64 off.data⟩] := by
  have hdata : (nm ++ "," ++ off).data = nm.data ++ ',' :: off.data := by
    simp [String.data_append]
  have hsemi : ';' ∉ (nm ++ "," ++ off).data := by
    rw [hdata]
    simp only [List.mem_append, List.mem_cons, not_or]
    exact ⟨h2, by decide, h4⟩
  have hne : (nm ++ "," ++ off).data ≠ [] := by
    rw [hdata]
    simp
  have hsplit : rsplitChar ',' ((nm ++ "," ++ off).data) = some (nm.data, off.data) := by
    rw [hdata]
    exact rsplitChar_append ',' nm.data off.data h3
  constructor
  · rw [parse_enhanced_entities, blockParse_single ';' enhancedEntityOfBlock _ hsemi hne,
      enhancedEntityOfBlock, hsplit]
    simp [h1]
  · rw [parse_names, blockParse_single ';' nameOfBlock _ hsemi hne, nameOfBlock, hsplit]
    simp [h1]

/-- Witness for C5 at the block of the specification example, whose name
itself contains a comma. -/
theorem C5_last_comma_split_witness :
    parse_enhanced_entities "Biden, Joe,250" = [⟨"Biden, Joe", 250⟩] ∧
    parse_names "Biden, Joe,250" = [⟨"Biden, Joe", 250⟩] := by
  have h := C5_last_comma_split "Biden, Joe" "250" (by decide) (by decide) (by decide) (by decide)
  have e : ("Biden, Joe" ++ "," ++ "250" : String) = "Biden, Joe,250" := rfl
  rw [e] at h
  exact ⟨h.1.trans (by decide), h.2.trans (by decide)⟩

/-- Claim C10: in the enhanced persons/organizations parser and the names
parser, a nonempty block without any comma yields no element, a block
whose text before its last comma is empty yields no element, while an
unparsable offset after the last comma defaults to 0 with the element
still emitted. -/
theorem C10_dropped_blocks (b off nm junk : String)
    (hb1 : b.data ≠ []) (hb2 : ',' ∉ b.data) (hb3 : ';' ∉ b.data)
    (ho1 : ',' ∉ off.data) (ho2 : ';' ∉ off.data)
    (hn1 : nm.data ≠ []) (hn2 : ';' ∉ nm.data)
    (hj1 : ',' ∉ junk.data) (hj2 : ';' ∉ junk.data) (hj3 : parseIntOpt junk.data = none) :
    parse_enhanced_entities b = [] ∧ parse_names b = [] ∧
    parse_enhanced_entities ("," ++ off) = [] ∧ parse_names ("," ++ off) = [] ∧
    parse_enhanced_entities (nm ++ "," ++ junk) = [⟨nm, 0⟩] ∧
    parse_names (nm ++ "," ++ junk) = [⟨nm, 0⟩] := by
  have hnone : rsplitChar ',' b.data = none := rsplitChar_eq_none ',' b.data hb2
  have hcdata : ("," ++ off).data = [] ++ ',' :: off.data := by
    simp [String.data_append]
  have hcsemi : ';' ∉ ("," ++ off).data := by
    rw [hcdata]
    simp only [List.nil_append, List.mem_cons, not_or]
    exact ⟨by decide, ho2⟩
  have hcne : ("," ++ off).data ≠ [] := by
    rw [hcdata]
    simp
  have hcsplit : rsplitChar ',' (("," ++ off).data) = some ([], off.data) := by
    rw [hcdata]
    exact rsplitChar_append ',' [] off.data ho1
  have hzero : parse_i64 junk.data = 0 := by
    rw [parse_i64, hj3]
  have hjdata : (nm ++ "," ++ junk).data = nm.data ++ ',' :: junk.data := by
    simp [String.data_append]
  have hjsemi : ';' ∉ (nm ++ "," ++ junk).data := by
    rw [hjdata]
    simp only [List.mem_append, List.mem_cons, not_or]
    exact ⟨hn2, by decide, hj2⟩
  have hjne : (nm ++ "," ++ junk).data ≠ [] := by
    rw [hjdata]
    simp
  have hjsplit : rsplitChar ',' ((nm ++ "," ++ junk).data) = some (nm.data, junk.data) := by
    rw [hjdata]
    exact rsplitChar_append ',' nm.data junk.data hj1
  refine ⟨?_, ?_, ?_, ?_, ?_, ?_⟩
  · rw [parse_enhanced_entities, blockParse_single ';' enhancedEntityOfBlock b hb3 hb1,
      enhancedEntityOfBlock, hnone]
    rfl
  · rw [parse_names, blockParse_single ';' nameOfBlock b hb3 hb1, nameOfBlock, hnone]
    rfl
  · rw [parse_enhanced_entities, blockParse_single ';' enhancedEntityOfBlock _ hcsemi hcne,
      enhancedEntityOfBlock, hcsplit]
    rfl
  · rw [parse_names, blockParse_single ';' nameOfBlock _ hcsemi hcne, nameOfBlock, hcsplit]
    rfl
  · rw [parse_enhanced_entities, blockParse_single ';' enhancedEntityOfBlock _ hjsemi hjne,
      enhancedEntityOfBlock, hjsplit]
    simp [hn1, hzero]
  · rw [parse_names, blockParse_single ';' nameOfBlock _ hjsemi hjne, nameOfBlock, hjsplit]
    simp [hn1, hzero]

/-- Witness for C10 at a comma-free block, an empty-name block, and a
block with an unparsable offset. -/
theorem C10_dropped_blocks_witness :
    parse_enhanced_entities "Smith" = [] ∧ parse_names "Smith" = [] ∧
    parse_enhanced_entities ",250" = [] ∧ parse_names ",250" = [] ∧
    parse_enhanced_entities "Dole,25x" = [⟨"Dole", 0⟩] ∧
    parse_names "Dole,25x" = [⟨"Dole", 0⟩] := by
  have h := C10_dropped_blocks "Smith" "250" "Dole" "25x" (by decide) (by decide) (by decide)
    (by decide) (by decide) (by decide) (by decide) (by decide) (by decide) (by decide)
  have e1 : ("," ++ "250" : String) = ",250" := rfl
  have e2 : ("Dole" ++ "," ++ "25x" : String) = "Dole,25x" := rfl
  rw [e1, e2] at h
  exact h

/-- Claim C2: the parsers whose Rust bodies index or slice directly (the
quotations parser's positional indexing and the enhanced-entity parsers'
slices around the rfind position) agree, on every input, with their
checked counterparts in which an out-of-bounds access surfaces as `none`:
no input can make the indexing fail, and in the embedding all parsers are
total functions.  A malformed numeric sub-field inside a kept quotation
block defaults to zero while the block is still emitted. -/
theorem C2_total_no_panic (s : String) :
    parse_quotationsChk s = some (parse_quotations s) ∧
    parse_enhanced_entitiesChk s = some (parse_enhanced_entities s) ∧
    parse_quotations "x|y|said|hello" = [⟨0, 0, "said", "hello"⟩] := by
  refine ⟨?_, ?_, by decide⟩
  · rw [parse_quotationsChk, parse_quotations, blockParse]
    by_cases h : s.data.isEmpty <;>
      simp [h, runBlocksChk_eq quotationOfBlockChk quotationOfBlock quotationOfBlockChk_eq]
  · rw [parse_enhanced_entitiesChk, parse_enhanced_entities, blockParse]
    by_cases h : s.data.isEmpty <;>
      simp [h,
        runBlocksChk_eq enhancedEntityOfBlockChk enhancedEntityOfBlock enhancedEntityOfBlockChk_eq]

/-- Claim C6: a counts block with fewer than 2 hash-parts and a quotations
block with fewer than 4 pipe-parts produce no element, so the element
count equals the number of blocks meeting the minimum; blocks meeting the
minimum are emitted with missing trailing positions defaulted. -/
theorem C6_minimum_parts (field : String) :
    (parse_counts_v1 field).length =
      (blocksOf ';' field).countP (fun b => 2 ≤ (splitOnCore '#' b).length) ∧
    (parse_counts_v21 field).length =
      (blocksOf ';' field).countP (fun b => 2 ≤ (splitOnCore '#' b).length) ∧
    (parse_quotations field).length =
      (blocksOf '#' field).countP (fun b => 4 ≤ (splitOnCore '|' b).length) ∧
    parse_counts_v1 "KILL#5" = [⟨"KILL", 5, "", ⟨0, "", "", "", 0, 0, ""⟩⟩] ∧
    parse_counts_v21 "KILL#5" = [⟨"KILL", 5, "", ⟨0, "", "", "", 0, 0, ""⟩, 0⟩] ∧
    parse_quotations "12|7|said|" = [⟨12, 7, "said", ""⟩] ∧
    parse_counts_v1 "KILL" = [] ∧ parse_quotations "12|7|said" = [] := by
  have hc1 : ∀ b, (countV1OfBlock b).isSome = decide (2 ≤ (splitOnCore '#' b).length) := by
    intro b
    unfold countV1OfBlock
    by_cases hb : (splitOnCore '#' b).length < 2
    · rw [if_pos hb]
      simp
      omega
    · rw [if_neg hb]
      simp
      omega
  have hc21 : ∀ b, (countV21OfBlock b).isSome = decide (2 ≤ (splitOnCore '#' b).length) := by
    intro b
    unfold countV21OfBlock
    by_cases hb : (splitOnCore '#' b).length < 2
    · rw [if_pos hb]
      simp
      omega
    · rw [if_neg hb]
      simp
      omega
  have hq : ∀ b, (quotationOfBlock b).isSome = decide (4 ≤ (splitOnCore '|' b).length) := by
    intro b
    unfold quotationOfBlock
    by_cases hb : (splitOnCore '|' b).length < 4
    · rw [if_pos hb]
      simp
      omega
    · rw [if_neg hb]
      simp
      omega
  refine ⟨?_, ?_, ?_, by decide, by decide, by decide, by decide, by decide⟩
  · rw [parse_counts_v1, blockParse_eq, length_filterMap_eq_countP]
    exact List.countP_congr (fun b _ => by rw [hc1 b])
  · rw [parse_counts_v21, blockParse_eq, length_filterMap_eq_countP]
    exact List.countP_congr (fun b _ => by rw [hc21 b])
  · rw [parse_quotations, blockParse_eq, length_filterMap_eq_countP]
    exact List.countP_congr (fun b _ => by rw [hq b])

/-- Claim C8: every composite sub-parser distributes over its block delimiter:
parsing a field formed by joining two fields with one delimiter character
yields the elements of the first followed by the elements of the second,
so output order equals input order, one element per well-formed block,
and identical blocks are kept as identical adjacent elements rather than
deduplicated. -/
theorem C8_order_preserved (s t : String) :
    parse_counts_v1 (s ++ ";" ++ t) = parse_counts_v1 s ++ parse_counts_v1 t ∧
    parse_counts_v21 (s ++ ";" ++ t) = parse_counts_v21 s ++ parse_counts_v21 t ∧
    parse_themes_v1 (s ++ ";" ++ t) = parse_themes_v1 s ++ parse_themes_v1 t ∧
    parse_enhanced_themes (s ++ ";" ++ t) = parse_enhanced_themes s ++ parse_enhanced_themes t ∧
    parse_locations_v1 (s ++ ";" ++ t) = parse_locations_v1 s ++ parse_locations_v1 t ∧
    parse_enhanced_locations (s ++ ";" ++ t) =
      parse_enhanced_locations s ++ parse_enhanced_locations t ∧
    parse_persons_v1 (s ++ ";" ++ t) = parse_persons_v1 s ++ parse_persons_v1 t ∧
    parse_enhanced_entities (s ++ ";" ++ t) =
      parse_enhanced_entities s ++ parse_enhanced_entities t ∧
    parse_enhanced_dates (s ++ ";" ++ t) = parse_enhanced_dates s ++ parse_enhanced_dates t ∧
    parse_gcam (s ++ "," ++ t) = parse_gcam s ++ parse_gcam t ∧
    parse_quotations (s ++ "#" ++ t) = parse_quotations s ++ parse_quotations t ∧
    parse_names (s ++ ";" ++ t) = parse_names s ++ parse_names t ∧
    parse_amounts (s ++ ";" ++ t) = parse_amounts s ++ parse_amounts t ∧
    parse_locations_v1 "1#x;1#x" =
      [⟨1, "x", "", "", 0, 0, ""⟩, ⟨1, "x", "", "", 0, 0, ""⟩] :=
  ⟨blockParse_append ';' countV1OfBlock s t,
    blockParse_append ';' countV21OfBlock s t,
    blockParse_append ';' (fun b => some (String.mk b)) s t,
    blockParse_append ';' enhancedThemeOfBlock s t,
    blockParse_append ';' locationV1OfBlock s t,
    blockParse_append ';' enhancedLocationOfBlock s t,
    blockParse_append ';' (fun b => some (String.mk b)) s t,
    blockParse_append ';' enhancedEntityOfBlock s t,
    blockParse_append ';' enhancedDateOfBlock s t,
    blockParse_append ',' gcamOfBlock s t,
    blockParse_append '#' quotationOfBlock s t,
    blockParse_append ';' nameOfBlock s t,
    blockParse_append ';' amountOfBlock s t,
    by decide⟩

/-- Join pieces with a single delimiter character between them. -/
def joinC (c : Char) : List (List Char) → List Char
  | [] => []
  | [p] => p
  | p :: ps => p ++ c :: joinC c ps

theorem splitOnCore_joinC (c : Char) (ps : List (List Char)) (hne : ps ≠ [])
    (h : ∀ p ∈ ps, c ∉ p) : splitOnCore c (joinC c ps) = ps := by
  induction ps with
  | nil => exact absurd rfl hne
  | cons p ps ih =>
    cases ps with
    | nil => exact splitOnCore_of_not_mem c p (h p (by simp))
    | cons q qs =>
      show splitOnCore c (p ++ c :: joinC c (q :: qs)) = p :: q :: qs
      rw [splitOnCore_append, splitOnCore_of_not_mem c p (h p (by simp)),
        ih (by simp) (fun r hr => h r (by simp [hr]))]
      rfl

/-- Claim C4: the enhanced-locations grammar reads its hash-parts positionally
as location type, full name, country, adm1, adm2, latitude, longitude,
feature id and char offset (adm2 inserted between adm1 and latitude
relative to the basic grammar), while the basic grammar reads latitude
and longitude at hash-parts 4 and 5. -/
theorem C4_location_positions (p0 p1 p2 p3 p4 p5 p6 p7 p8 : String)
    (h : ∀ q ∈ [p0, p1, p2, p3, p4, p5, p6, p7, p8], '#' ∉ q.data ∧ ';' ∉ q.data) :
    parse_enhanced_locations
        (p0 ++ "#" ++ p1 ++ "#" ++ p2 ++ "#" ++ p3 ++ "#" ++ p4 ++ "#" ++ p5 ++ "#" ++
          p6 ++ "#" ++ p7 ++ "#" ++ p8) =
      [⟨parse_i32 p0.data, p1, p2, p3, p4, parse_f64 p5.data, parse_f64 p6.data, p7,
        parse_i64 p8.data⟩] ∧
    parse_locations_v1
        (p0 ++ "#" ++ p1 ++ "#" ++ p2 ++ "#" ++ p3 ++ "#" ++ p4 ++ "#" ++ p5 ++ "#" ++ p6) =
      [⟨parse_i32 p0.data, p1, p2, p3, parse_f64 p4.data, parse_f64 p5.data, p6⟩] := by
  have h0 := h p0 (by simp)
  have h1 := h p1 (by simp)
  have h2 := h p2 (by simp)
  have h3 := h p3 (by simp)
  have h4 := h p4 (by simp)
  have h5 := h p5 (by simp)
  have h6 := h p6 (by simp)
  have h7 := h p7 (by simp)
  have h8 := h p8 (by simp)
  constructor
  · have hdata : (p0 ++ "#" ++ p1 ++ "#" ++ p2 ++ "#" ++ p3 ++ "#" ++ p4 ++ "#" ++ p5 ++
        "#" ++ p6 ++ "#" ++ p7 ++ "#" ++ p8).data =
        joinC '#' [p0.data, p1.data, p2.data, p3.data, p4.data, p5.data, p6.data,
          p7.data, p8.data] := by
      show _ = p0.data ++ '#' :: (p1.data ++ '#' :: (p2.data ++ '#' :: (p3.data ++ '#' ::
        (p4.data ++ '#' :: (p5.data ++ '#' :: (p6.data ++ '#' :: (p7.data ++ '#' ::
          p8.data)))))))
      simp [String.data_append]
    have hsp : splitOnCore '#' ((p0 ++ "#" ++ p1 ++ "#" ++ p2 ++ "#" ++ p3 ++ "#" ++ p4 ++
        "#" ++ p5 ++ "#" ++ p6 ++ "#" ++ p7 ++ "#" ++ p8).data) =
        [p0.data, p1.data, p2.data, p3.data, p4.data, p5.data, p6.data, p7.data, p8.data] := by
      rw [hdata]
      exact splitOnCore_joinC '#' _ (by simp) (by
        intro r hr
        simp only [List.mem_cons, List.not_mem_nil] at hr
        rcases hr with rfl | rfl | rfl | rfl | rfl | rfl | rfl | rfl | rfl | hf
        · exact h0.1
        · exact h1.1
        · exact h2.1
        · exact h3.1
        · exact h4.1
        · exact h5.1
        · exact h6.1
        · exact h7.1
        · exact h8.1
        · exact absurd hf (by simp))
    have hsemi : ';' ∉ (p0 ++ "#" ++ p1 ++ "#" ++ p2 ++ "#" ++ p3 ++ "#" ++ p4 ++ "#" ++
        p5 ++ "#" ++ p6 ++ "#" ++ p7 ++ "#" ++ p8).data := by
      rw [hdata]
      simp only [joinC, List.mem_append, List.mem_cons, not_or]
      refine ⟨h0.2, by decide, h1.2, by decide, h2.2, by decide, h3.2, by decide, h4.2,
        by decide, h5.2, by decide, h6.2, by decide, h7.2, by decide, h8.2⟩
    have hne : (p0 ++ "#" ++ p1 ++ "#" ++ p2 ++ "#" ++ p3 ++ "#" ++ p4 ++ "#" ++ p5 ++
        "#" ++ p6 ++ "#" ++ p7 ++ "#" ++ p8).data ≠ [] := by
      rw [hdata]
      simp [joinC]
    rw [parse_enhanced_locations, blockParse_single ';' enhancedLocationOfBlock _ hsemi hne,
      enhancedLocationOfBlock, hsp]
    rfl
  · have hdata : (p0 ++ "#" ++ p1 ++ "#" ++ p2 ++ "#" ++ p3 ++ "#" ++ p4 ++ "#" ++ p5 ++
        "#" ++ p6).data =
        joinC '#' [p0.data, p1.data, p2.data, p3.data, p4.data, p5.data, p6.data] := by
      show _ = p0.data ++ '#' :: (p1.data ++ '#' :: (p2.data ++ '#' :: (p3.data ++ '#' ::
        (p4.data ++ '#' :: (p5.data ++ '#' :: p6.data)))))
      simp [String.data_append]
    have hsp : splitOnCore '#' ((p0 ++ "#" ++ p1 ++ "#" ++ p2 ++ "#" ++ p3 ++ "#" ++ p4 ++
        "#" ++ p5 ++ "#" ++ p6).data) =
        [p0.data, p1.data, p2.data, p3.data, p4.data, p5.data, p6.data] := by
      rw [hdata]
      exact splitOnCore_joinC '#' _ (by simp) (by
        intro r hr
        simp only [List.mem_cons, List.not_mem_nil] at hr
        rcases hr with rfl | rfl | rfl | rfl | rfl | rfl | rfl | hf
        · exact h0.1
        · exact h1.1
        · exact h2.1
        · exact h3.1
        · exact h4.1
        · exact h5.1
        · exact h6.1
        · exact absurd hf (by simp))
    have hsemi : ';' ∉ (p0 ++ "#" ++ p1 ++ "#" ++ p2 ++ "#" ++ p3 ++ "#" ++ p4 ++ "#" ++
        p5 ++ "#" ++ p6).data := by
      rw [hdata]
      simp only [joinC, List.mem_append, List.mem_cons, not_or]
      refine ⟨h0.2, by decide, h1.2, by decide, h2.2, by decide, h3.2, by decide, h4.2,
        by decide, h5.2, by decide, h6.2⟩
    have hne : (p0 ++ "#" ++ p1 ++ "#" ++ p2 ++ "#" ++ p3 ++ "#" ++ p4 ++ "#" ++ p5 ++
        "#" ++ p6).data ≠ [] := by
      rw [hdata]
      simp [joinC]
    rw [parse_locations_v1, blockParse_single ';' locationV1OfBlock _ hsemi hne,
      locationV1OfBlock, hsp]
    rfl

/-- Witness for C4 at the specification's Washington example, commas in
the full name preserved. -/
theorem C4_location_positions_witness :
    parse_locations_v1
        "4#Washington, District of Columbia, United States#US#USDC#38.8951#-77.0364#531871" =
      [⟨4, "Washington, District of Columbia, United States", "US", "USDC",
        38.8951, -77.0364, "531871"⟩] := by
  have h := (C4_location_positions "4" "Washington, District of Columbia, United States"
    "US" "USDC" "38.8951" "-77.0364" "531871" "0" "0" (by decide)).2
  have e : ("4" ++ "#" ++ "Washington, District of Columbia, United States" ++ "#" ++ "US" ++
      "#" ++ "USDC" ++ "#" ++ "38.8951" ++ "#" ++ "-77.0364" ++ "#" ++ "531871" : String) =
      "4#Washington, District of Columbia, United States#US#USDC#38.8951#-77.0364#531871" := rfl
  rw [e] at h
  rw [h]
  have hlat : parse_f64 "38.8951".data = 38.8951 := by
    have hx : parse_f64 "38.8951".data =
        ((natOfDigits "38".data : ℚ) + (natOfDigits "8951".data : ℚ) / 10 ^ 4) *
          10 ^ (0 : ℤ) := rfl
    rw [hx, show natOfDigits "38".data = 38 from rfl,
      show natOfDigits "8951".data = 8951 from rfl]
    norm_num
  have hlon : parse_f64 "-77.0364".data = -77.0364 := by
    have hx : parse_f64 "-77.0364".data =
        -(((natOfDigits "77".data : ℚ) + (natOfDigits "0364".data : ℚ) / 10 ^ 4) *
          10 ^ (0 : ℤ)) := rfl
    rw [hx, show natOfDigits "77".data = 77 from rfl,
      show natOfDigits "0364".data = 364 from rfl]
    norm_num
  rw [hlat, hlon]
  rfl

/-- Counterexample to C7 as stated: the field consisting of just the
srclc prefix carries a recognised prefix in its only token, yet the
Translation Info parser returns None because the extracted value is
empty. -/
theorem C7_counterexample :
    claimRecognizedToken "srclc:" = true ∧ parse_translation_info "srclc:" = none := by
  decide

/-- Claim C7 (amended): every composite sub-parser maps the empty string to an
empty collection and the Tone parser maps it to None; the Translation
Info parser returns None exactly when the per-key extracted values (the
trimmed text after the recognised prefix in the last token carrying it)
are both empty, and otherwise returns an entity holding those two
values, an absent one being the empty string. -/
theorem C7_empty_defaults (field : String) :
    parse_translation_info field =
      (if (specTransValue srclcKey field).isEmpty ∧ (specTransValue engKey field).isEmpty
        then none
        else some ⟨String.mk (specTransValue srclcKey field),
          String.mk (specTransValue engKey field)⟩) ∧
    parse_counts_v1 "" = [] ∧ parse_counts_v21 "" = [] ∧ parse_themes_v1 "" = [] ∧
    parse_enhanced_themes "" = [] ∧ parse_locations_v1 "" = [] ∧
    parse_enhanced_locations "" = [] ∧ parse_persons_v1 "" = [] ∧
    parse_enhanced_entities "" = [] ∧ parse_tone "" = none ∧
    parse_enhanced_dates "" = [] ∧ parse_gcam "" = [] ∧ parse_quotations "" = [] ∧
    parse_names "" = [] ∧ parse_amounts "" = [] ∧ parse_translation_info "" = none := by
  refine ⟨?_, rfl, rfl, rfl, rfl, rfl, rfl, rfl, rfl, rfl, rfl, rfl, rfl, rfl, rfl, rfl⟩
  unfold parse_translation_info specTransValue
  by_cases h : field.data.isEmpty
  · have hd : field.data = [] := by simpa using h
    rw [hd]
    decide
  · simp [h, translation_foldl_eq]

/-- Claim C9: the sequence of items produced by the Line Reader enumerates the
physical lines with 1-based numbers, strips the trailing line feed and
carriage returns from each, skips the lines that are empty after
stripping while still counting them, and every yielded pair carries
nonempty text; the empty stream yields nothing. -/
theorem C9_line_reader (s : List Char) :
    gkgRun s 0 = (physLines s).enum.filterMap readerItem ∧
    ∀ pr ∈ gkgRun s 0, pr.2 ≠ "" := by
  have h := gkgRun_spec s 0
  constructor
  · exact h
  · intro pr hpr
    rw [h] at hpr
    obtain ⟨p, hp, hitem⟩ := List.mem_filterMap.mp hpr
    unfold readerItem at hitem
    by_cases ht : (stripLine p.2).isEmpty
    · rw [if_pos ht] at hitem
      cases hitem
    · rw [if_neg ht] at hitem
      injection hitem with h2
      subst h2
      intro hcon
      have hd := congrArg String.data hcon
      simp only [] at hd
      apply ht
      have : stripLine p.2 = [] := hd
      simp [this]

end Newsfresh
